import Mathlib

/-!
Shallow embedding of the file-storage backend: the hierarchy store
(`app/routes/folders.py`, `app/routes/files.py` over the SQLite schema of
`migrations/003_create_folders_table.py` and `migrations/004_create_files_table.py`)
and the security utilities (`app/utils/security.py`).

Timestamps are passed explicitly as a `now : Nat` parameter; SQLite row
contents are modelled as Lean structures; file bytes are `List Nat`
(each < 256); base64 transfer encoding is modelled over `List Char`.
-/

namespace FSBackend

/-- Error taxonomy of the routes: HTTPException status codes raised by the
handlers (400 invalid input, 401 unauthorized, 404 not found, 500 internal). -/
inductive Err where
  | invalidInput
  | unauthorized
  | notFound
  | internal
deriving DecidableEq, Repr

/-- A row of the `folders` table (migration 003): id, name, user_id,
parent_folder_id (NULL = root), created_at. -/
structure Folder where
  id : Nat
  name : String
  userId : Nat
  parentFolderId : Option Nat
  createdAt : Nat
deriving DecidableEq, Repr

/-- A row of the `files` table (migration 004): id, name, content BLOB,
size, mime_type, user_id, parent_folder_id, created_at. -/
structure FileRec where
  id : Nat
  name : String
  content : List Nat
  size : Nat
  mimeType : String
  userId : Nat
  parentFolderId : Option Nat
  createdAt : Nat
deriving DecidableEq, Repr

/-- The persistent store: the two tables plus the AUTOINCREMENT counters
(SQLite assigns ids 1, 2, ... in insertion order). -/
structure DB where
  folders : List Folder
  files : List FileRec
  nextFolderId : Nat
  nextFileId : Nat
deriving DecidableEq, Repr

/-- The empty store right after the migrations ran. -/
def DB.init : DB := ⟨[], [], 1, 1⟩

/-- `SELECT ... FROM folders WHERE id = ? AND user_id = ?`. -/
def findFolder (db : DB) (fid : Nat) (uid : Nat) : Option Folder :=
  db.folders.find? (fun g => g.id = fid && g.userId = uid)

/-- `SELECT ... FROM files WHERE id = ? AND user_id = ?`. -/
def findFile (db : DB) (fid : Nat) (uid : Nat) : Option FileRec :=
  db.files.find? (fun h => h.id = fid && h.userId = uid)

/-- Primary-key uniqueness of the two tables (`id INTEGER PRIMARY KEY`). -/
def WF (db : DB) : Prop :=
  db.folders.Pairwise (fun a b => a.id ≠ b.id) ∧
  db.files.Pairwise (fun a b => a.id ≠ b.id)

instance (db : DB) : Decidable (WF db) := by
  unfold WF; infer_instance

/-- Python truthiness of an `Optional[int]` field: `if folder.parent_folder_id:`
is taken exactly when the value is neither `None` nor `0`. -/
def truthyId : Option Nat → Bool
  | none => false
  | some n => n != 0

/-- The storage engine's referential-integrity check on insert, per the DDL
`FOREIGN KEY (parent_folder_id) REFERENCES folders(id)` of migrations 003/004:
a non-NULL parent must name an existing folder row (any owner).
Modelled from the spec: the connection setup (`app/database.py`) is not in the
sources; §3 and §5 of the spec treat the store as enforcing referential
integrity, so foreign keys are modelled as enforced, and a violating INSERT
raises, surfacing as the generic 500 handler. -/
def fkFolderExists (db : DB) : Option Nat → Bool
  | none => true
  | some p => db.folders.any (fun g => g.id = p)

/-- `create_folder` (`app/routes/folders.py`): empty name → 400; a truthy
`parent_folder_id` not owned by the caller → 404; then INSERT (engine FK check)
and return the created row. -/
def create_folder (db : DB) (uid : Nat) (name : String) (parent : Option Nat)
    (now : Nat) : Except Err Folder × DB :=
  if name = "" then (.error .invalidInput, db)
  else if truthyId parent && (findFolder db (parent.getD 0) uid).isNone then
    (.error .notFound, db)
  else if fkFolderExists db parent then
    (.ok ⟨db.nextFolderId, name, uid, parent, now⟩,
     { db with
       folders := db.folders ++ [⟨db.nextFolderId, name, uid, parent, now⟩],
       nextFolderId := db.nextFolderId + 1 })
  else (.error .internal, db)

/-- Result of `get_folder`: the folder row plus its direct children, both
listings scoped to the caller (`WHERE parent_folder_id = ? AND user_id = ?`).
The route projects these rows into response fields. -/
structure FolderView where
  folder : Folder
  subfolders : List Folder
  files : List FileRec
deriving DecidableEq, Repr

/-- `get_folder` (`app/routes/folders.py`): 404 unless a folder with this id
owned by the caller exists; otherwise the row and its child listings. -/
def get_folder (db : DB) (uid : Nat) (fid : Nat) : Except Err FolderView :=
  match findFolder db fid uid with
  | none => .error .notFound
  | some g =>
    .ok ⟨g,
      db.folders.filter (fun s => s.parentFolderId = some fid && s.userId = uid),
      db.files.filter (fun h => h.parentFolderId = some fid && h.userId = uid)⟩

/-- The UPDATE of `rename_folder`: `UPDATE folders SET name = ? WHERE id = ?`
(filtering on id only, as in the source). -/
def renameFoldersMap (db : DB) (fid : Nat) (name : String) : DB :=
  { db with folders := db.folders.map (fun g =>
      if g.id = fid then { g with name := name } else g) }

/-- Fetch of the updated row after the folder-rename UPDATE. -/
def renameFolderApply (db : DB) (fid : Nat) (name : String) :
    Except Err Folder × DB :=
  match (renameFoldersMap db fid name).folders.find? (fun g => g.id = fid) with
  | some g => (.ok g, renameFoldersMap db fid name)
  | none => (.error .internal, renameFoldersMap db fid name)

/-- `rename_folder` (`app/routes/folders.py`): empty name → 400; id absent or
not owned → 404; otherwise the UPDATE. -/
def rename_folder (db : DB) (uid : Nat) (fid : Nat) (name : String) :
    Except Err Folder × DB :=
  if name = "" then (.error .invalidInput, db)
  else match findFolder db fid uid with
  | none => (.error .notFound, db)
  | some _ => renameFolderApply db fid name

/-- One closure step of the engine's cascading delete: ids of folders whose
parent is already marked dead and that are not yet marked. -/
def childIds (fs : List Folder) (dead : List Nat) : List Nat :=
  (fs.filter (fun g =>
    (g.parentFolderId.elim false dead.contains) && !dead.contains g.id)).map (·.id)

/-- Fuel-bounded transitive closure of `childIds`; with fuel `fs.length` it
reaches the fixpoint (each productive step marks a fresh folder id). -/
def closure (fs : List Folder) : Nat → List Nat → List Nat
  | 0, dead => dead
  | fuel + 1, dead =>
    match childIds fs dead with
    | [] => dead
    | n :: ns => closure fs fuel (dead ++ n :: ns)

/-- The set of folder ids removed when folder `rootId` is deleted: the root and,
transitively, every folder whose parent chain reaches it
(`ON DELETE CASCADE` on `folders.parent_folder_id`, migration 003). -/
def cascadeSet (db : DB) (rootId : Nat) : List Nat :=
  closure db.folders db.folders.length [rootId]

/-- `delete_folder` (`app/routes/folders.py`): 404 unless owned; otherwise
`DELETE FROM folders WHERE id = ?`, and the engine cascades: descendant
folders vanish via the self-referencing FK, and every file whose
parent_folder_id names a deleted folder vanishes via the files FK
(migration 004). Root-level files are untouched. -/
def delete_folder (db : DB) (uid : Nat) (fid : Nat) : Except Err Unit × DB :=
  match findFolder db fid uid with
  | none => (.error .notFound, db)
  | some _ =>
    let dead := cascadeSet db fid
    (.ok (), { db with
      folders := db.folders.filter (fun g => !dead.contains g.id),
      files := db.files.filter (fun h => !(h.parentFolderId.elim false dead.contains)) })

/-! ### Base64 transfer encoding

File content crosses the boundary as standard base64 text (`base64.b64encode` /
`base64.b64decode` in `app/routes/files.py`). Bytes are `List Nat` (< 256),
encoded text is `List Char`. `b64decode` here accepts exactly well-formed
padded base64 and returns `none` otherwise, modelling the library raising
`binascii.Error` on malformed input (the library additionally discards
characters outside the alphabet before decoding; no claim depends on that
lenient path). -/

/-- The base64 alphabet, in value order. -/
def b64Table : List Char :=
  "ABCDEFGHIJKLMNOPQRSTUVWXYZabcdefghijklmnopqrstuvwxyz0123456789+/".toList

/-- The character standing for a 6-bit value. -/
def encChar (n : Nat) : Char := b64Table.getD n '='

/-- The 6-bit value of an alphabet character. -/
def decChar (c : Char) : Option Nat := b64Table.indexOf? c

/-- `base64.b64encode`: groups of three bytes become four characters, a final
partial group is padded with `=`. -/
def b64encode : List Nat → List Char
  | [] => []
  | [a] => [encChar (a / 4), encChar (a % 4 * 16), '=', '=']
  | [a, b] => [encChar (a / 4), encChar (a % 4 * 16 + b / 16),
               encChar (b % 16 * 4), '=']
  | a :: b :: c :: rest =>
    encChar (a / 4) :: encChar (a % 4 * 16 + b / 16) ::
    encChar (b % 16 * 4 + c / 64) :: encChar (c % 64) :: b64encode rest

/-- `base64.b64decode` on well-formed input; `none` models the raised
decoding error. Input is consumed in four-character groups; the final group
may carry one or two `=` padding characters. -/
def b64decode : List Char → Option (List Nat)
  | [] => some []
  | c1 :: c2 :: c3 :: c4 :: rest =>
    if rest = [] then
      if c3 = '=' && c4 = '=' then
        match decChar c1, decChar c2 with
        | some a, some b => some [a * 4 + b / 16]
        | _, _ => none
      else if c4 = '=' then
        match decChar c1, decChar c2, decChar c3 with
        | some a, some b, some c => some [a * 4 + b / 16, b % 16 * 16 + c / 4]
        | _, _, _ => none
      else
        match decChar c1, decChar c2, decChar c3, decChar c4 with
        | some a, some b, some c, some d =>
          some [a * 4 + b / 16, b % 16 * 16 + c / 4, c % 4 * 64 + d]
        | _, _, _, _ => none
    else
      match decChar c1, decChar c2, decChar c3, decChar c4, b64decode rest with
      | some a, some b, some c, some d, some tail =>
        some ((a * 4 + b / 16) :: (b % 16 * 16 + c / 4) :: (c % 4 * 64 + d) :: tail)
      | _, _, _, _, _ => none
  | _ => none

/-! ### File routes (`app/routes/files.py`) -/

/-- `detect_mime_type`: `mimetypes.guess_type` on the file name with the
source's `or "application/octet-stream"` default. The library's extension
table is modelled on the extensions exercised here; everything else falls to
the default, exactly as unrecognized names do in the source. -/
def detect_mime_type (filename : String) : String :=
  if filename.endsWith ".pdf" then "application/pdf"
  else if filename.endsWith ".txt" then "text/plain"
  else if filename.endsWith ".png" then "image/png"
  else "application/octet-stream"

/-- `upload_file`: empty name → 400, empty content string → 400, undecodable
base64 → 400; truthy `parent_folder_id` not owned by the caller → 404;
then INSERT (engine FK check) with `size = len(decoded)` and inferred MIME
type, returning the created row. -/
def upload_file (db : DB) (uid : Nat) (name : String) (content : List Char)
    (parent : Option Nat) (now : Nat) : Except Err FileRec × DB :=
  if name = "" then (.error .invalidInput, db)
  else if content = [] then (.error .invalidInput, db)
  else match b64decode content with
  | none => (.error .invalidInput, db)
  | some bytes =>
    if truthyId parent && (findFolder db (parent.getD 0) uid).isNone then
      (.error .notFound, db)
    else if fkFolderExists db parent then
      (.ok ⟨db.nextFileId, name, bytes, bytes.length,
        detect_mime_type name, uid, parent, now⟩,
       { db with
         files := db.files ++ [⟨db.nextFileId, name, bytes, bytes.length,
           detect_mime_type name, uid, parent, now⟩],
         nextFileId := db.nextFileId + 1 })
    else (.error .internal, db)

/-- `get_file_metadata`: 404 unless a file with this id owned by the caller
exists; otherwise its row (the route omits the content column). -/
def get_file_metadata (db : DB) (uid : Nat) (fid : Nat) : Except Err FileRec :=
  match findFile db fid uid with
  | none => .error .notFound
  | some h => .ok h

/-- Result of `download_file`: row fields with the content re-encoded to
base64 text at the boundary. -/
structure DownloadView where
  id : Nat
  name : String
  content : List Char
  mimeType : String
  size : Nat
deriving DecidableEq, Repr

/-- `download_file`: 404 unless owned; otherwise metadata plus
`base64.b64encode` of the stored BLOB. -/
def download_file (db : DB) (uid : Nat) (fid : Nat) : Except Err DownloadView :=
  match findFile db fid uid with
  | none => .error .notFound
  | some h => .ok ⟨h.id, h.name, b64encode h.content, h.mimeType, h.size⟩

/-- The UPDATE of `rename_file`: `UPDATE files SET name = ? WHERE id = ?`. -/
def renameFilesMap (db : DB) (fid : Nat) (name : String) : DB :=
  { db with files := db.files.map (fun h =>
      if h.id = fid then { h with name := name } else h) }

/-- Fetch of the updated row after the file-rename UPDATE. -/
def renameFileApply (db : DB) (fid : Nat) (name : String) :
    Except Err FileRec × DB :=
  match (renameFilesMap db fid name).files.find? (fun h => h.id = fid) with
  | some h => (.ok h, renameFilesMap db fid name)
  | none => (.error .internal, renameFilesMap db fid name)

/-- `rename_file`: empty name → 400; id absent or not owned → 404; otherwise
the UPDATE. -/
def rename_file (db : DB) (uid : Nat) (fid : Nat) (name : String) :
    Except Err FileRec × DB :=
  if name = "" then (.error .invalidInput, db)
  else match findFile db fid uid with
  | none => (.error .notFound, db)
  | some _ => renameFileApply db fid name

/-- `delete_file`: 404 unless owned; otherwise
`DELETE FROM files WHERE id = ?` — a single-row delete, no cascade. -/
def delete_file (db : DB) (uid : Nat) (fid : Nat) : Except Err Unit × DB :=
  match findFile db fid uid with
  | none => (.error .notFound, db)
  | some _ =>
    (.ok (), { db with files := db.files.filter (fun h => !(h.id = fid : Bool)) })

/-- The UPDATE of `move_file`:
`UPDATE files SET parent_folder_id = ? WHERE id = ?`. -/
def moveFilesMap (db : DB) (fid : Nat) (target : Option Nat) : DB :=
  { db with files := db.files.map (fun h =>
      if h.id = fid then { h with parentFolderId := target } else h) }

/-- Fetch of the updated row after the file-move UPDATE. -/
def moveFileApply (db : DB) (fid : Nat) (target : Option Nat) :
    Except Err FileRec × DB :=
  match (moveFilesMap db fid target).files.find? (fun h => h.id = fid) with
  | some h => (.ok h, moveFilesMap db fid target)
  | none => (.error .internal, moveFilesMap db fid target)

/-- `move_file`: 404 unless the file is owned; a given target folder
(`is not None` in the source, so `0` is NOT exempt here) must be owned or
404; then `UPDATE files SET parent_folder_id = ? WHERE id = ?`. -/
def move_file (db : DB) (uid : Nat) (fid : Nat) (target : Option Nat) :
    Except Err FileRec × DB :=
  match findFile db fid uid with
  | none => (.error .notFound, db)
  | some _ =>
    match target with
    | some t =>
      match findFolder db t uid with
      | none => (.error .notFound, db)
      | some _ => moveFileApply db fid target
    | none => moveFileApply db fid target

/-- Modelled from the spec: "a fetch of the root-level listing" (§8). No route
in the sources lists root-level entries, so the listing is modelled as the
spec's words describe it — the caller's files whose parent reference is null. -/
def root_listing (db : DB) (uid : Nat) : List FileRec :=
  db.files.filter (fun h => h.userId = uid && h.parentFolderId = none)

/-! ### Security utilities (`app/utils/security.py`)

Passwords are modelled at the byte level (the source UTF-8-encodes and then
truncates to 72 bytes). The bcrypt library itself is external to the
repository; it is modelled by its documented behaviour: a digest string either
parses as a bcrypt record (salt + hash of the truncated password) or it does
not, in which case `bcrypt.checkpw`/`hashpw` raise `ValueError("Invalid salt")`.
Raising is modelled by `Except String`. -/

/-- A candidate digest string: either a well-formed bcrypt record (carrying
its salt and the truncated password bytes whose hash it stores) or an
arbitrary string bcrypt's salt parser rejects. -/
inductive Digest where
  | bcrypt (salt : Nat) (storedPw : List Nat)
  | raw (s : String)
deriving DecidableEq, Repr

/-- `bcrypt.hashpw(pw, bcrypt.gensalt())` as called by `hash_password`, with
the fresh random salt made explicit: stores the 72-byte-truncated password
(the source truncates before the call; bcrypt would also truncate). -/
def hash_password (password : List Nat) (salt : Nat) : Digest :=
  .bcrypt salt (password.take 72)

/-- `bcrypt.checkpw(pw, digest)`: re-hashes under the digest's salt and
compares; raises `ValueError("Invalid salt")` when the digest does not parse
as a bcrypt record. -/
def checkpw (password : List Nat) (digest : Digest) : Except String Bool :=
  match digest with
  | .bcrypt _ stored => .ok (decide (password.take 72 = stored))
  | .raw _ => .error "Invalid salt"

/-- `verify_password`: truncates the plain password to 72 bytes and delegates
to `bcrypt.checkpw` with no exception handling of its own. -/
def verify_password (plain : List Nat) (digest : Digest) : Except String Bool :=
  checkpw (plain.take 72) digest

/-- `SECRET_KEY`: `os.getenv` default from `security.py` (no environment in
the model). -/
def SECRET_KEY : String := "your-secret-key-change-in-production"

/-- `ACCESS_TOKEN_EXPIRE_MINUTES` from `security.py`. -/
def ACCESS_TOKEN_EXPIRE_MINUTES : Nat := 30

/-- The decoded claims of a JWT: `payload.get` may find each claim absent.
Expiration is an absolute instant in seconds. -/
structure Claims where
  user_id : Option Nat
  email : Option String
  exp : Option Nat
deriving DecidableEq, Repr

/-- Modelled from the spec: the HMAC-SHA256 signature of the jose library.
§4.2 treats tokens as signed with a symmetric key such that forging a valid
signature without the key is impossible; the MAC is therefore modelled as the
(key, claims) pair itself — deterministic and collision-free. -/
inductive Sig where
  | hmac (key : String) (claims : Claims)
deriving DecidableEq, Repr

/-- Modelled from the spec: a token string is either a structurally valid
JWS (claims plus signature) or some non-JWS string. -/
inductive TokenStr where
  | jws (claims : Claims) (sig : Sig)
  | malformed (raw : String)
deriving DecidableEq, Repr

/-- `jose.jwt.encode`: serialize the claims and sign them with the key. -/
def jwt_encode (claims : Claims) (key : String) : TokenStr :=
  .jws claims (.hmac key claims)

/-- Modelled from the spec: `jose.jwt.decode`, which raises `JWTError` (here
`none`) on a structurally malformed token, a signature mismatch, or an expired
token — §4.2: invalid when "current time ≥ expiration". A token without an
`exp` claim has nothing to expire. -/
def jwt_decode (t : TokenStr) (key : String) (now : Nat) : Option Claims :=
  match t with
  | .malformed _ => none
  | .jws c s =>
    if s = Sig.hmac key c then
      match c.exp with
      | some e => if e ≤ now then none else some c
      | none => some c
    else none

/-- `TokenData` (`security.py`): the authenticated identity. -/
structure TokenData where
  user_id : Nat
  email : String
deriving DecidableEq, Repr

/-- `create_access_token`: expiry defaults to 30 minutes from now; the claims
are `user_id`, `email`, `exp`, signed with `SECRET_KEY`. The issuing instant
`now` is explicit (seconds). -/
def create_access_token (uid : Nat) (email : String)
    (expires_delta : Option Nat) (now : Nat) : TokenStr :=
  jwt_encode ⟨some uid, some email,
    some (now + expires_delta.getD (ACCESS_TOKEN_EXPIRE_MINUTES * 60))⟩
    SECRET_KEY

/-- `verify_token`: decode under `SECRET_KEY`; any `JWTError` and any payload
missing `user_id` or `email` yield `None`. A total function — it never
throws. -/
def verify_token (t : TokenStr) (now : Nat) : Option TokenData :=
  match jwt_decode t SECRET_KEY now with
  | none => none
  | some payload =>
    match payload.user_id, payload.email with
    | some uid, some em => some ⟨uid, em⟩
    | _, _ => none

/-! ### Reachable stores

The states the hierarchy store can be in: the migrated empty database followed
by any sequence of the mutating route handlers (the read-only handlers do not
touch the store). -/

/-- A database state reachable from the freshly migrated store through the
public mutating operations, each invoked with arbitrary caller and arguments. -/
inductive Reachable : DB → Prop
  | init : Reachable DB.init
  | createFolder {db} (uid : Nat) (name : String) (parent : Option Nat)
      (now : Nat) : Reachable db → Reachable (create_folder db uid name parent now).2
  | renameFolder {db} (uid fid : Nat) (name : String) :
      Reachable db → Reachable (rename_folder db uid fid name).2
  | deleteFolder {db} (uid fid : Nat) :
      Reachable db → Reachable (delete_folder db uid fid).2
  | uploadFile {db} (uid : Nat) (name : String) (content : List Char)
      (parent : Option Nat) (now : Nat) :
      Reachable db → Reachable (upload_file db uid name content parent now).2
  | renameFile {db} (uid fid : Nat) (name : String) :
      Reachable db → Reachable (rename_file db uid fid name).2
  | deleteFile {db} (uid fid : Nat) :
      Reachable db → Reachable (delete_file db uid fid).2
  | moveFile {db} (uid fid : Nat) (target : Option Nat) :
      Reachable db → Reachable (move_file db uid fid target).2

/-- One parent step between folder ids: `a`'s row names `b` as its parent. -/
def ParentStep (fs : List Folder) (a b : Nat) : Prop :=
  ∃ g ∈ fs, g.id = a ∧ g.parentFolderId = some b

/-- The four rejection conditions of the Token Service on an input token:
structurally malformed, signature mismatch, expired (current time ≥
expiration), or missing a required claim. -/
def BadTokenInput (t : TokenStr) (now : Nat) : Prop :=
  (∃ r, t = .malformed r) ∨
  (∃ c s, t = .jws c s ∧ s ≠ .hmac SECRET_KEY c) ∨
  (∃ c s e, t = .jws c s ∧ c.exp = some e ∧ e ≤ now) ∨
  (∃ c s, t = .jws c s ∧ (c.user_id = none ∨ c.email = none))

/-- A forged variant of an issued token: a different token string that was not
produced by signing under the secret key (tampering with any byte of a real
JWS either breaks its structure or yields a claims/signature pair the signer
never produced; producing a validly signed pair without the key is exactly
what the MAC assumption of §4.2 rules out). -/
def Tampered (t t' : TokenStr) : Prop :=
  t' ≠ t ∧ ∀ c : Claims, t' ≠ jwt_encode c SECRET_KEY

/-- `x` is (the id of) a folder in the subtree rooted at `root`: the root
itself, or a folder whose parent chain reaches `root`. -/
inductive Descendant (fs : List Folder) (root : Nat) : Nat → Prop
  | refl : Descendant fs root root
  | step {p : Nat} (g : Folder) (hg : g ∈ fs) (hp : g.parentFolderId = some p)
      (hd : Descendant fs root p) : Descendant fs root g.id

/-- Number of folders not yet marked dead — the decreasing measure of
`closure`. -/
def unmarked (fs : List Folder) (dead : List Nat) : Nat :=
  (fs.filter (fun g => !dead.contains g.id)).length

/-- The structural invariants of reachable stores: AUTOINCREMENT ids are
positive, below the counters and pairwise distinct; every non-NULL parent
reference is a smaller id naming an existing folder of the same owner. -/
def Inv (db : DB) : Prop :=
  1 ≤ db.nextFolderId ∧
  (∀ g ∈ db.folders, 0 < g.id ∧ g.id < db.nextFolderId) ∧
  (∀ h ∈ db.files, h.id < db.nextFileId) ∧
  WF db ∧
  (∀ g ∈ db.folders, ∀ p, g.parentFolderId = some p →
    p < g.id ∧ ∃ q ∈ db.folders, q.id = p ∧ q.userId = g.userId) ∧
  (∀ h ∈ db.files, ∀ p, h.parentFolderId = some p →
    ∃ q ∈ db.folders, q.id = p ∧ q.userId = h.userId)

/-! ### Concrete stores used to instantiate the theorems -/

/-- A folder owned by user 2. -/
def folderB : Folder := ⟨1, "docs", 2, none, 0⟩

/-- A file owned by user 2, inside `folderB`. -/
def fileB : FileRec := ⟨1, "a.txt", [104], 1, "text/plain", 2, some 1, 0⟩

/-- A store holding only user 2's folder and file. -/
def dbW : DB := ⟨[folderB], [fileB], 2, 2⟩

/-- Root folder of user 1. -/
def folderR : Folder := ⟨1, "docs", 1, none, 0⟩

/-- Subfolder of `folderR`. -/
def folderS : Folder := ⟨2, "reports", 1, some 1, 0⟩

/-- A file of user 1 inside `folderS`. -/
def fileC : FileRec := ⟨1, "q1.pdf", [37], 1, "application/pdf", 1, some 2, 0⟩

/-- A store with user 1's two-level folder chain and a file at the bottom. -/
def dbC : DB := ⟨[folderR, folderS], [fileC], 3, 2⟩

/-! ## Helper lemmas -/

/-- Entries of a list with pairwise-distinct ids are determined by their id. -/
theorem eq_of_mem_of_id_eq {α : Type} (idf : α → Nat) {l : List α}
    (hp : l.Pairwise (fun x y => idf x ≠ idf y)) {x y : α}
    (hx : x ∈ l) (hy : y ∈ l) (hxy : idf x = idf y) : x = y := by
  induction l with
  | nil => cases hx
  | cons a t ih =>
    obtain ⟨ha, ht⟩ := List.pairwise_cons.mp hp
    rcases List.mem_cons.mp hx with rfl | hx' <;>
      rcases List.mem_cons.mp hy with rfl | hy'
    · rfl
    · exact absurd hxy (ha y hy')
    · exact absurd hxy.symm (ha x hx')
    · exact ih ht hx' hy'

/-- `find?` on a list with pairwise-distinct ids returns the unique member
satisfying an id-determined predicate. -/
theorem find?_eq_of_unique {α : Type} (idf : α → Nat) {l : List α}
    (hp : l.Pairwise (fun x y => idf x ≠ idf y)) {g : α} (hg : g ∈ l)
    (p : α → Bool) (hpg : p g = true)
    (honly : ∀ x ∈ l, p x = true → idf x = idf g) : l.find? p = some g := by
  induction l with
  | nil => cases hg
  | cons a t ih =>
    obtain ⟨ha, ht⟩ := List.pairwise_cons.mp hp
    by_cases hpa : p a = true
    · rw [List.find?_cons_of_pos _ hpa]
      have hid : idf a = idf g := honly a (List.mem_cons_self a t) hpa
      rw [eq_of_mem_of_id_eq idf hp (List.mem_cons_self a t) hg hid]
    · rw [List.find?_cons_of_neg _ hpa]
      have hg' : g ∈ t := by
        rcases List.mem_cons.mp hg with rfl | h
        · exact absurd hpg hpa
        · exact h
      exact ih ht hg' fun x hx hpx => honly x (List.mem_cons_of_mem _ hx) hpx

/-- `find?` over a map that rewrites exactly the rows with a given id. -/
theorem find?_map_update {α : Type} (idf : α → Nat) {l : List α}
    (hp : l.Pairwise (fun x y => idf x ≠ idf y)) {g : α} (hg : g ∈ l)
    {fid : Nat} (hid : idf g = fid) (f : α → α) (hf : ∀ x, idf (f x) = idf x) :
    (l.map fun x => if idf x = fid then f x else x).find?
      (fun x => idf x = fid) = some (f g) := by
  induction l with
  | nil => cases hg
  | cons a t ih =>
    obtain ⟨ha, ht⟩ := List.pairwise_cons.mp hp
    by_cases haid : idf a = fid
    · have hag : a = g := eq_of_mem_of_id_eq idf hp (List.mem_cons_self a t) hg
        (by rw [haid, hid])
      subst hag
      simp only [List.map_cons, if_pos haid]
      apply List.find?_cons_of_pos
      simp only [hf, haid, decide_True]
    · have hg' : g ∈ t := by
        rcases List.mem_cons.mp hg with rfl | h
        · exact absurd hid haid
        · exact h
      simp only [List.map_cons, if_neg haid]
      rw [List.find?_cons_of_neg _ (by simp [haid])]
      exact ih ht hg'

/-- Membership form of `List.contains` at `Nat`. -/
theorem nat_contains_iff {l : List Nat} {a : Nat} :
    l.contains a = true ↔ a ∈ l := by
  simp [List.contains_iff_exists_mem_beq, beq_iff_eq]

/-- Filtering with a stronger predicate keeps at most as many elements. -/
theorem length_filter_le_of_imp {α : Type} (p q : α → Bool) (l : List α)
    (himp : ∀ a, p a = true → q a = true) :
    (l.filter p).length ≤ (l.filter q).length := by
  induction l with
  | nil => simp
  | cons a t ih =>
    by_cases hpa : p a = true
    · simp only [List.filter_cons, hpa, himp a hpa, if_pos, List.length_cons]
      omega
    · by_cases hqa : q a = true
      · simp only [List.filter_cons, hpa, hqa, if_pos, if_neg, List.length_cons]
        simp only [Bool.false_eq_true, if_false]
        omega
      · simp only [List.filter_cons, hpa, hqa]
        simp only [Bool.false_eq_true, if_false]
        exact ih

/-- Filtering with a strictly stronger predicate (witnessed by one element)
keeps strictly fewer elements. -/
theorem length_filter_lt_of_imp {α : Type} (p q : α → Bool) {l : List α}
    (himp : ∀ a, p a = true → q a = true) {a₀ : α} (ha : a₀ ∈ l)
    (hq : q a₀ = true) (hp : p a₀ = false) :
    (l.filter p).length < (l.filter q).length := by
  induction l with
  | nil => cases ha
  | cons a t ih =>
    rcases List.mem_cons.mp ha with rfl | ha'
    · simp only [List.filter_cons, hp, hq, Bool.false_eq_true, if_false, if_pos,
        List.length_cons]
      exact Nat.lt_succ_of_le (length_filter_le_of_imp p q t himp)
    · by_cases hpa : p a = true
      · simp only [List.filter_cons, hpa, himp a hpa, if_pos, List.length_cons]
        exact Nat.succ_lt_succ (ih ha')
      · simp only [List.filter_cons, hpa, Bool.false_eq_true, if_false]
        rcases hqa : q a with _ | _
        · simp only [Bool.false_eq_true, if_false]
          exact ih ha'
        · simp only [if_pos, List.length_cons]
          exact Nat.lt_succ_of_lt (ih ha')

/-! ## Base64 round-trip -/

/-- Decoding inverts encoding on each 6-bit value. -/
theorem decChar_encChar : ∀ v, v < 64 → decChar (encChar v) = some v := by decide

/-- Alphabet characters are never the padding character. -/
theorem encChar_ne_pad : ∀ v, v < 64 → encChar v ≠ '=' := by decide

/-- Encoding a non-empty byte list yields a non-empty text. -/
theorem b64encode_ne_nil : ∀ {C : List Nat}, C ≠ [] → b64encode C ≠ []
  | [], h => absurd rfl h
  | [_], _ => by simp [b64encode]
  | [_, _], _ => by simp [b64encode]
  | _ :: _ :: _ :: _, _ => by simp [b64encode]

/-- The transfer-encoding round trip: decoding an encoded byte sequence
recovers it exactly. -/
theorem b64_roundtrip : ∀ C : List Nat, (∀ x ∈ C, x < 256) →
    b64decode (b64encode C) = some C
  | [], _ => rfl
  | [a], h => by
    have ha : a < 256 := h a (by simp)
    have h1 := decChar_encChar (a / 4) (by omega)
    have h2 := decChar_encChar (a % 4 * 16) (by omega)
    simp [b64encode, b64decode, h1, h2]
    omega
  | [a, b], h => by
    have ha : a < 256 := h a (by simp)
    have hb : b < 256 := h b (by simp)
    have h1 := decChar_encChar (a / 4) (by omega)
    have h2 := decChar_encChar (a % 4 * 16 + b / 16) (by omega)
    have h3 := decChar_encChar (b % 16 * 4) (by omega)
    have hne := encChar_ne_pad (b % 16 * 4) (by omega)
    simp [b64encode, b64decode, h1, h2, h3, hne]
    omega
  | [a, b, c], h => by
    have ha : a < 256 := h a (by simp)
    have hb : b < 256 := h b (by simp)
    have hc : c < 256 := h c (by simp)
    have h1 := decChar_encChar (a / 4) (by omega)
    have h2 := decChar_encChar (a % 4 * 16 + b / 16) (by omega)
    have h3 := decChar_encChar (b % 16 * 4 + c / 64) (by omega)
    have h4 := decChar_encChar (c % 64) (by omega)
    have hne3 := encChar_ne_pad (b % 16 * 4 + c / 64) (by omega)
    have hne4 := encChar_ne_pad (c % 64) (by omega)
    simp [b64encode, b64decode, h1, h2, h3, h4, hne3, hne4]
    omega
  | a :: b :: c :: r :: rs, h => by
    have ha : a < 256 := h a (by simp)
    have hb : b < 256 := h b (by simp)
    have hc : c < 256 := h c (by simp)
    have h1 := decChar_encChar (a / 4) (by omega)
    have h2 := decChar_encChar (a % 4 * 16 + b / 16) (by omega)
    have h3 := decChar_encChar (b % 16 * 4 + c / 64) (by omega)
    have h4 := decChar_encChar (c % 64) (by omega)
    have ih := b64_roundtrip (r :: rs) (fun x hx => h x (by simp at hx ⊢; tauto))
    have hne : b64encode (r :: rs) ≠ [] := b64encode_ne_nil (by simp)
    simp only [b64encode, b64decode, if_neg hne, h1, h2, h3, h4, ih]
    simp only [Option.some.injEq, List.cons.injEq, and_true]
    omega

/-! ## Cascade closure lemmas -/

/-- Marked ids stay marked as the closure iterates. -/
theorem subset_closure (fs : List Folder) :
    ∀ fuel dead, dead ⊆ closure fs fuel dead := by
  intro fuel
  induction fuel with
  | zero => intro dead; simp [closure]
  | succ n ih =>
    intro dead
    cases hc : childIds fs dead with
    | nil => simp [closure, hc]
    | cons x xs =>
      simp only [closure, hc]
      exact List.Subset.trans (List.subset_append_left _ _) (ih _)

/-- With enough fuel the closure is closed under the parent relation: a folder
whose parent is marked is marked itself. -/
theorem closure_closed (fs : List Folder) :
    ∀ fuel dead, unmarked fs dead ≤ fuel →
    ∀ g ∈ fs, ∀ p, g.parentFolderId = some p →
    p ∈ closure fs fuel dead → g.id ∈ closure fs fuel dead := by
  intro fuel
  induction fuel with
  | zero =>
    intro dead hm g hg p hp hpc
    simp only [closure] at hpc ⊢
    have hemp : fs.filter (fun g => !dead.contains g.id) = [] :=
      List.length_eq_zero.mp (Nat.le_zero.mp hm)
    by_contra hnot
    have hmem : g ∈ fs.filter (fun g => !dead.contains g.id) :=
      List.mem_filter.mpr ⟨hg, by simp [nat_contains_iff, hnot]⟩
    rw [hemp] at hmem
    cases hmem
  | succ n ih =>
    intro dead hm g hg p hp hpc
    cases hc : childIds fs dead with
    | nil =>
      have hred : closure fs (n + 1) dead = dead := by simp [closure, hc]
      rw [hred] at hpc ⊢
      by_contra hnot
      have hmem : g ∈ fs.filter (fun g =>
          (g.parentFolderId.elim false dead.contains) && !dead.contains g.id) := by
        refine List.mem_filter.mpr ⟨hg, ?_⟩
        simp [hp, Option.elim, nat_contains_iff, hpc, hnot]
      have : g.id ∈ childIds fs dead := List.mem_map.mpr ⟨g, hmem, rfl⟩
      rw [hc] at this
      cases this
    | cons x xs =>
      have hred : closure fs (n + 1) dead = closure fs n (dead ++ x :: xs) := by
        simp [closure, hc]
      rw [hred] at hpc ⊢
      refine ih (dead ++ x :: xs) ?_ g hg p hp hpc
      -- the step marked at least the fresh folder behind `x`
      have hx : x ∈ childIds fs dead := by rw [hc]; simp
      obtain ⟨g₀, hg₀, hgid⟩ := List.mem_map.mp hx
      obtain ⟨hg₀fs, hg₀p⟩ := List.mem_filter.mp hg₀
      have hq : (!dead.contains g₀.id) = true := by
        cases h1 : g₀.parentFolderId.elim false dead.contains <;>
          cases h2 : !dead.contains g₀.id <;> simp_all
      have hpfalse : (!(dead ++ x :: xs).contains g₀.id) = false := by
        have : g₀.id ∈ dead ++ x :: xs := by
          rw [hgid]; exact List.mem_append_right _ (by simp)
        simp [nat_contains_iff, this]
      have hlt : unmarked fs (dead ++ x :: xs) < unmarked fs dead := by
        refine length_filter_lt_of_imp _ _ ?_ hg₀fs hq hpfalse
        intro a hpa
        simp only [Bool.not_eq_true', Bool.eq_false_iff, ne_eq, nat_contains_iff]
          at hpa ⊢
        intro hmem
        exact hpa (List.mem_append_left _ hmem)
      omega

/-- Completeness of the cascade: every folder of the deleted subtree is in the
computed cascade set. -/
theorem descendant_mem_cascadeSet {db : DB} {root x : Nat}
    (h : Descendant db.folders root x) : x ∈ cascadeSet db root := by
  induction h with
  | refl => exact subset_closure _ _ _ (by simp)
  | step g hg hp _ ih =>
    exact closure_closed db.folders db.folders.length [root]
      (List.length_filter_le _ _) g hg _ hp ih

/-! ## State lemmas for the UPDATE steps -/

/-- The store after `renameFolderApply` is the mapped store, whichever
re-SELECT branch is taken. -/
theorem renameFolderApply_snd (db : DB) (fid : Nat) (name : String) :
    (renameFolderApply db fid name).2 = renameFoldersMap db fid name := by
  unfold renameFolderApply
  cases (renameFoldersMap db fid name).folders.find? (fun g => g.id = fid) <;> rfl

/-- The store after `renameFileApply` is the mapped store. -/
theorem renameFileApply_snd (db : DB) (fid : Nat) (name : String) :
    (renameFileApply db fid name).2 = renameFilesMap db fid name := by
  unfold renameFileApply
  cases (renameFilesMap db fid name).files.find? (fun h => h.id = fid) <;> rfl

/-- The store after `moveFileApply` is the mapped store. -/
theorem moveFileApply_snd (db : DB) (fid : Nat) (target : Option Nat) :
    (moveFileApply db fid target).2 = moveFilesMap db fid target := by
  unfold moveFileApply
  cases (moveFilesMap db fid target).files.find? (fun h => h.id = fid) <;> rfl

/-! ## Invariant preservation -/

/-- The rename UPDATE on folders preserves the structural invariants. -/
theorem inv_renameFoldersMap (db : DB) (fid : Nat) (name : String) (h : Inv db) :
    Inv (renameFoldersMap db fid name) := by
  obtain ⟨h1, h2, h3, ⟨hw1, hw2⟩, h5, h6⟩ := h
  have hfields : ∀ x : Folder,
      (if x.id = fid then { x with name := name } else x).id = x.id ∧
      (if x.id = fid then { x with name := name } else x).parentFolderId
        = x.parentFolderId ∧
      (if x.id = fid then { x with name := name } else x).userId = x.userId := by
    intro x; split <;> exact ⟨rfl, rfl, rfl⟩
  refine ⟨h1, ?_, h3, ⟨?_, hw2⟩, ?_, ?_⟩
  · intro g hg
    obtain ⟨x, hx, rfl⟩ := List.mem_map.mp hg
    rw [(hfields x).1]
    exact h2 x hx
  · refine List.pairwise_map.mpr (hw1.imp ?_)
    intro a b hab
    rw [(hfields a).1, (hfields b).1]
    exact hab
  · intro g hg p hp
    obtain ⟨x, hx, rfl⟩ := List.mem_map.mp hg
    rw [(hfields x).2.1] at hp
    obtain ⟨hlt, q, hq, hqid, hqu⟩ := h5 x hx p hp
    refine ⟨by rw [(hfields x).1]; exact hlt,
      (if q.id = fid then { q with name := name } else q),
      List.mem_map.mpr ⟨q, hq, rfl⟩, ?_, ?_⟩
    · rw [(hfields q).1]; exact hqid
    · rw [(hfields q).2.2, (hfields x).2.2]; exact hqu
  · intro x hx p hp
    obtain ⟨q, hq, hqid, hqu⟩ := h6 x hx p hp
    exact ⟨(if q.id = fid then { q with name := name } else q),
      List.mem_map.mpr ⟨q, hq, rfl⟩, by rw [(hfields q).1]; exact hqid,
      by rw [(hfields q).2.2]; exact hqu⟩

/-- `rename_folder` preserves the structural invariants. -/
theorem inv_rename_folder (db : DB) (uid fid : Nat) (name : String)
    (h : Inv db) : Inv (rename_folder db uid fid name).2 := by
  unfold rename_folder
  split
  · exact h
  · split
    · exact h
    · rw [renameFolderApply_snd]
      exact inv_renameFoldersMap db fid name h

/-- The rename UPDATE on files preserves the structural invariants. -/
theorem inv_renameFilesMap (db : DB) (fid : Nat) (name : String) (h : Inv db) :
    Inv (renameFilesMap db fid name) := by
  obtain ⟨h1, h2, h3, ⟨hw1, hw2⟩, h5, h6⟩ := h
  have hfields : ∀ x : FileRec,
      (if x.id = fid then { x with name := name } else x).id = x.id ∧
      (if x.id = fid then { x with name := name } else x).parentFolderId
        = x.parentFolderId ∧
      (if x.id = fid then { x with name := name } else x).userId = x.userId := by
    intro x; split <;> exact ⟨rfl, rfl, rfl⟩
  refine ⟨h1, h2, ?_, ⟨hw1, ?_⟩, h5, ?_⟩
  · intro x hx
    obtain ⟨y, hy, rfl⟩ := List.mem_map.mp hx
    rw [(hfields y).1]
    exact h3 y hy
  · refine List.pairwise_map.mpr (hw2.imp ?_)
    intro a b hab
    rw [(hfields a).1, (hfields b).1]
    exact hab
  · intro x hx p hp
    obtain ⟨y, hy, rfl⟩ := List.mem_map.mp hx
    rw [(hfields y).2.1] at hp
    obtain ⟨q, hq, hqid, hqu⟩ := h6 y hy p hp
    exact ⟨q, hq, hqid, by rw [(hfields y).2.2]; exact hqu⟩

/-- `rename_file` preserves the structural invariants. -/
theorem inv_rename_file (db : DB) (uid fid : Nat) (name : String)
    (h : Inv db) : Inv (rename_file db uid fid name).2 := by
  unfold rename_file
  split
  · exact h
  · split
    · exact h
    · rw [renameFileApply_snd]
      exact inv_renameFilesMap db fid name h

/-- `delete_file` preserves the structural invariants. -/
theorem inv_delete_file (db : DB) (uid fid : Nat) (h : Inv db) :
    Inv (delete_file db uid fid).2 := by
  obtain ⟨h1, h2, h3, ⟨hw1, hw2⟩, h5, h6⟩ := h
  unfold delete_file
  split
  · exact ⟨h1, h2, h3, ⟨hw1, hw2⟩, h5, h6⟩
  · refine ⟨h1, h2, ?_, ⟨hw1, List.Pairwise.sublist (List.filter_sublist _) hw2⟩,
      h5, ?_⟩
    · intro x hx
      exact h3 x (List.mem_filter.mp hx).1
    · intro x hx p hp
      exact h6 x (List.mem_filter.mp hx).1 p hp

/-- The move UPDATE on files preserves the structural invariants, provided any
row it retargets gets a parent folder of its own owner. -/
theorem inv_moveFilesMap (db : DB) (fid : Nat) (target : Option Nat)
    (h : Inv db)
    (howner : ∀ x ∈ db.files, x.id = fid → ∀ p, target = some p →
      ∃ q ∈ db.folders, q.id = p ∧ q.userId = x.userId) :
    Inv (moveFilesMap db fid target) := by
  obtain ⟨h1, h2, h3, ⟨hw1, hw2⟩, h5, h6⟩ := h
  refine ⟨h1, h2, ?_, ⟨hw1, ?_⟩, h5, ?_⟩
  · intro x hx
    obtain ⟨y, hy, rfl⟩ := List.mem_map.mp hx
    have : (if y.id = fid then { y with parentFolderId := target } else y).id
        = y.id := by split <;> rfl
    rw [this]
    exact h3 y hy
  · refine List.pairwise_map.mpr (hw2.imp ?_)
    intro a b hab
    have ha : (if a.id = fid then { a with parentFolderId := target } else a).id
        = a.id := by split <;> rfl
    have hb : (if b.id = fid then { b with parentFolderId := target } else b).id
        = b.id := by split <;> rfl
    rw [ha, hb]
    exact hab
  · intro x hx p hp
    obtain ⟨y, hy, rfl⟩ := List.mem_map.mp hx
    by_cases hid : y.id = fid
    · rw [if_pos hid] at hp ⊢
      obtain ⟨q, hq, hqid, hqu⟩ := howner y hy hid p hp
      exact ⟨q, hq, hqid, hqu⟩
    · rw [if_neg hid] at hp ⊢
      exact h6 y hy p hp

/-- `move_file` preserves the structural invariants. -/
theorem inv_move_file (db : DB) (uid fid : Nat) (target : Option Nat)
    (h : Inv db) : Inv (move_file db uid fid target).2 := by
  have hw2 := h.2.2.2.1.2
  unfold move_file
  cases hfr : findFile db fid uid with
  | none => exact h
  | some h₀ =>
    have hmem := List.mem_of_find?_eq_some hfr
    have hpred := List.find?_some hfr
    simp only [Bool.and_eq_true, decide_eq_true_eq] at hpred
    cases target with
    | none =>
      dsimp only
      rw [moveFileApply_snd]
      refine inv_moveFilesMap db fid none h ?_
      intro x _ _ p hp
      cases hp
    | some t =>
      dsimp only
      cases hfo : findFolder db t uid with
      | none => exact h
      | some q =>
        dsimp only
        rw [moveFileApply_snd]
        refine inv_moveFilesMap db fid (some t) h ?_
        intro x hx hxid p hp
        injection hp with hp
        subst hp
        have hqmem := List.mem_of_find?_eq_some hfo
        have hqpred := List.find?_some hfo
        simp only [Bool.and_eq_true, decide_eq_true_eq] at hqpred
        have hxeq : x = h₀ := eq_of_mem_of_id_eq FileRec.id hw2 hx hmem
          (by rw [hxid, hpred.1])
        exact ⟨q, hqmem, hqpred.1, by rw [hxeq, hpred.2, hqpred.2]⟩

/-- `create_folder` preserves the structural invariants. -/
theorem inv_create_folder (db : DB) (uid : Nat) (name : String)
    (parent : Option Nat) (now : Nat) (h : Inv db) :
    Inv (create_folder db uid name parent now).2 := by
  obtain ⟨h1, h2, h3, ⟨hw1, hw2⟩, h5, h6⟩ := h
  by_cases hname : name = ""
  · simp only [create_folder, if_pos hname]
    exact ⟨h1, h2, h3, ⟨hw1, hw2⟩, h5, h6⟩
  by_cases hchk : (truthyId parent && (findFolder db (parent.getD 0) uid).isNone)
      = true
  · simp only [create_folder, if_neg hname, if_pos hchk]
    exact ⟨h1, h2, h3, ⟨hw1, hw2⟩, h5, h6⟩
  by_cases hfk : fkFolderExists db parent = true
  · simp only [create_folder, if_neg hname, if_neg hchk, if_pos hfk]
    refine ⟨by dsimp only; omega, ?_, h3, ⟨?_, hw2⟩, ?_, ?_⟩
    · dsimp only
      intro g hg
      rcases List.mem_append.mp hg with hg' | hg'
      · have := h2 g hg'
        exact ⟨this.1, by omega⟩
      · rw [List.mem_singleton.mp hg']
        exact ⟨by dsimp only; omega, by dsimp only; omega⟩
    · dsimp only
      refine List.pairwise_append.mpr ⟨hw1, by simp, ?_⟩
      intro a ha b hb
      rw [List.mem_singleton.mp hb]
      have := h2 a ha
      dsimp only
      simp only [ne_eq]
      omega
    · dsimp only
      intro g hg p hp
      rcases List.mem_append.mp hg with hg' | hg'
      · obtain ⟨hlt, q, hq, hqid, hqu⟩ := h5 g hg' p hp
        exact ⟨hlt, q, List.mem_append_left _ hq, hqid, hqu⟩
      · rw [List.mem_singleton.mp hg'] at hp ⊢
        dsimp only at hp
        by_cases hp0 : p = 0
        · exfalso
          subst hp0
          rw [hp] at hfk
          simp only [fkFolderExists] at hfk
          obtain ⟨q, hq, hq0⟩ := List.any_eq_true.mp hfk
          have := (h2 q hq).1
          simp only [decide_eq_true_eq] at hq0
          omega
        · have htruthy : truthyId parent = true := by
            rw [hp]; simp [truthyId, hp0]
          have hnone : (findFolder db (parent.getD 0) uid).isNone = false := by
            cases hiso : (findFolder db (parent.getD 0) uid).isNone
            · rfl
            · exact absurd (by rw [htruthy, hiso]; rfl) hchk
          cases hfind : findFolder db (parent.getD 0) uid with
          | none => rw [hfind] at hnone; cases hnone
          | some q =>
            have hqmem := List.mem_of_find?_eq_some hfind
            have hqpred := List.find?_some hfind
            simp only [Bool.and_eq_true, decide_eq_true_eq] at hqpred
            have hgd : parent.getD 0 = p := by rw [hp]; rfl
            rw [hgd] at hqpred
            have hqlt := (h2 q hqmem).2
            exact ⟨by dsimp only; omega, q, List.mem_append_left _ hqmem,
              hqpred.1, hqpred.2⟩
    · dsimp only
      intro x hx p hp
      obtain ⟨q, hq, hqid, hqu⟩ := h6 x hx p hp
      exact ⟨q, List.mem_append_left _ hq, hqid, hqu⟩
  · simp only [create_folder, if_neg hname, if_neg hchk, if_neg hfk]
    exact ⟨h1, h2, h3, ⟨hw1, hw2⟩, h5, h6⟩

/-- `upload_file` preserves the structural invariants. -/
theorem inv_upload_file (db : DB) (uid : Nat) (name : String)
    (content : List Char) (parent : Option Nat) (now : Nat) (h : Inv db) :
    Inv (upload_file db uid name content parent now).2 := by
  obtain ⟨h1, h2, h3, ⟨hw1, hw2⟩, h5, h6⟩ := h
  by_cases hname : name = ""
  · simp only [upload_file, if_pos hname]
    exact ⟨h1, h2, h3, ⟨hw1, hw2⟩, h5, h6⟩
  by_cases hcont : content = []
  · simp only [upload_file, if_neg hname, if_pos hcont]
    exact ⟨h1, h2, h3, ⟨hw1, hw2⟩, h5, h6⟩
  simp only [upload_file, if_neg hname, if_neg hcont]
  cases hdec : b64decode content with
  | none => exact ⟨h1, h2, h3, ⟨hw1, hw2⟩, h5, h6⟩
  | some bytes =>
    dsimp only
    by_cases hchk : (truthyId parent
        && (findFolder db (parent.getD 0) uid).isNone) = true
    · simp only [if_pos hchk]
      exact ⟨h1, h2, h3, ⟨hw1, hw2⟩, h5, h6⟩
    by_cases hfk : fkFolderExists db parent = true
    · simp only [if_neg hchk, if_pos hfk]
      refine ⟨h1, h2, ?_, ⟨hw1, ?_⟩, h5, ?_⟩
      · dsimp only
        intro x hx
        rcases List.mem_append.mp hx with hx' | hx'
        · have := h3 x hx'
          omega
        · rw [List.mem_singleton.mp hx']
          dsimp only
          omega
      · dsimp only
        refine List.pairwise_append.mpr ⟨hw2, by simp, ?_⟩
        intro a ha b hb
        rw [List.mem_singleton.mp hb]
        have := h3 a ha
        dsimp only
        simp only [ne_eq]
        omega
      · dsimp only
        intro x hx p hp
        rcases List.mem_append.mp hx with hx' | hx'
        · exact h6 x hx' p hp
        · rw [List.mem_singleton.mp hx'] at hp ⊢
          dsimp only at hp ⊢
          by_cases hp0 : p = 0
          · exfalso
            subst hp0
            rw [hp] at hfk
            simp only [fkFolderExists] at hfk
            obtain ⟨q, hq, hq0⟩ := List.any_eq_true.mp hfk
            have := (h2 q hq).1
            simp only [decide_eq_true_eq] at hq0
            omega
          · have htruthy : truthyId parent = true := by
              rw [hp]; simp [truthyId, hp0]
            have hnone : (findFolder db (parent.getD 0) uid).isNone = false := by
              cases hiso : (findFolder db (parent.getD 0) uid).isNone
              · rfl
              · exact absurd (by rw [htruthy, hiso]; rfl) hchk
            cases hfind : findFolder db (parent.getD 0) uid with
            | none => rw [hfind] at hnone; cases hnone
            | some q =>
              have hqmem := List.mem_of_find?_eq_some hfind
              have hqpred := List.find?_some hfind
              simp only [Bool.and_eq_true, decide_eq_true_eq] at hqpred
              have hgd : parent.getD 0 = p := by rw [hp]; rfl
              rw [hgd] at hqpred
              exact ⟨q, hqmem, hqpred.1, hqpred.2⟩
    · simp only [if_neg hchk, if_neg hfk]
      exact ⟨h1, h2, h3, ⟨hw1, hw2⟩, h5, h6⟩

/-- `delete_folder` preserves the structural invariants. -/
theorem inv_delete_folder (db : DB) (uid fid : Nat) (h : Inv db) :
    Inv (delete_folder db uid fid).2 := by
  obtain ⟨h1, h2, h3, ⟨hw1, hw2⟩, h5, h6⟩ := h
  unfold delete_folder
  cases hf : findFolder db fid uid with
  | none => exact ⟨h1, h2, h3, ⟨hw1, hw2⟩, h5, h6⟩
  | some g₀ =>
    dsimp only
    refine ⟨h1, ?_, ?_,
      ⟨List.Pairwise.sublist (List.filter_sublist _) hw1,
       List.Pairwise.sublist (List.filter_sublist _) hw2⟩, ?_, ?_⟩
    · intro g hg
      exact h2 g (List.mem_filter.mp hg).1
    · intro x hx
      exact h3 x (List.mem_filter.mp hx).1
    · intro g hg p hp
      obtain ⟨hgmem, hgkeep⟩ := List.mem_filter.mp hg
      obtain ⟨hlt, q, hq, hqid, hqu⟩ := h5 g hgmem p hp
      refine ⟨hlt, q, List.mem_filter.mpr ⟨hq, ?_⟩, hqid, hqu⟩
      simp only [Bool.not_eq_true', Bool.eq_false_iff, ne_eq, nat_contains_iff]
      intro hqin
      have hgin : g.id ∈ cascadeSet db fid :=
        closure_closed db.folders db.folders.length [fid]
          (List.length_filter_le _ _) g hgmem p hp (by rw [← hqid]; exact hqin)
      simp [nat_contains_iff, hgin] at hgkeep
    · intro x hx p hp
      obtain ⟨hxmem, hxkeep⟩ := List.mem_filter.mp hx
      obtain ⟨q, hq, hqid, hqu⟩ := h6 x hxmem p hp
      refine ⟨q, List.mem_filter.mpr ⟨hq, ?_⟩, hqid, hqu⟩
      rw [hp] at hxkeep
      simp only [Option.elim] at hxkeep
      rw [hqid]
      exact hxkeep

/-- Every reachable store satisfies the structural invariants. -/
theorem reachable_inv : ∀ {db : DB}, Reachable db → Inv db := by
  intro db h
  induction h with
  | init =>
    refine ⟨le_refl 1, ?_, ?_, ⟨?_, ?_⟩, ?_, ?_⟩ <;> simp [DB.init, WF]
  | createFolder uid name parent now hr ih =>
    exact inv_create_folder _ _ _ _ _ ih
  | renameFolder uid fid name hr ih => exact inv_rename_folder _ _ _ _ ih
  | deleteFolder uid fid hr ih => exact inv_delete_folder _ _ _ ih
  | uploadFile uid name content parent now hr ih =>
    exact inv_upload_file _ _ _ _ _ _ ih
  | renameFile uid fid name hr ih => exact inv_rename_file _ _ _ _ ih
  | deleteFile uid fid hr ih => exact inv_delete_file _ _ _ ih
  | moveFile uid fid target hr ih => exact inv_move_file _ _ _ _ ih

/-! ## Lookup lemmas -/

/-- Under primary-key uniqueness, looking up an owned folder by its id and
owner finds exactly that row. -/
theorem findFolder_self {db : DB}
    (hw1 : db.folders.Pairwise (fun a b => a.id ≠ b.id))
    {g : Folder} (hg : g ∈ db.folders) {uid : Nat} (hu : g.userId = uid) :
    findFolder db g.id uid = some g := by
  unfold findFolder
  refine find?_eq_of_unique Folder.id hw1 hg _ (by simp [hu]) ?_
  intro x hx hpx
  simp only [Bool.and_eq_true, decide_eq_true_eq] at hpx
  exact hpx.1

/-- A lookup scoped to a different user than the row's owner finds nothing. -/
theorem findFolder_cross {db : DB}
    (hw1 : db.folders.Pairwise (fun a b => a.id ≠ b.id))
    {g : Folder} (hg : g ∈ db.folders) {a : Nat} (ha : a ≠ g.userId) :
    findFolder db g.id a = none := by
  unfold findFolder
  refine List.find?_eq_none.mpr ?_
  intro x hx hpx
  simp only [Bool.and_eq_true, decide_eq_true_eq] at hpx
  have hxg : x = g := eq_of_mem_of_id_eq Folder.id hw1 hx hg hpx.1
  exact ha (by rw [← hxg, hpx.2])

/-- Under primary-key uniqueness, looking up an owned file by its id and owner
finds exactly that row. -/
theorem findFile_self {db : DB}
    (hw2 : db.files.Pairwise (fun a b => a.id ≠ b.id))
    {h : FileRec} (hh : h ∈ db.files) {uid : Nat} (hu : h.userId = uid) :
    findFile db h.id uid = some h := by
  unfold findFile
  refine find?_eq_of_unique FileRec.id hw2 hh _ (by simp [hu]) ?_
  intro x hx hpx
  simp only [Bool.and_eq_true, decide_eq_true_eq] at hpx
  exact hpx.1

/-- A file lookup scoped to a different user than the owner finds nothing. -/
theorem findFile_cross {db : DB}
    (hw2 : db.files.Pairwise (fun a b => a.id ≠ b.id))
    {h : FileRec} (hh : h ∈ db.files) {a : Nat} (ha : a ≠ h.userId) :
    findFile db h.id a = none := by
  unfold findFile
  refine List.find?_eq_none.mpr ?_
  intro x hx hpx
  simp only [Bool.and_eq_true, decide_eq_true_eq] at hpx
  have hxh : x = h := eq_of_mem_of_id_eq FileRec.id hw2 hx hh hpx.1
  exact ha (by rw [← hxh, hpx.2])

/-- The folder-rename UPDATE re-SELECT returns the renamed row. -/
theorem renameFolderApply_ok {db : DB}
    (hw1 : db.folders.Pairwise (fun a b => a.id ≠ b.id))
    {g : Folder} (hg : g ∈ db.folders) {fid : Nat} (hgid : g.id = fid)
    (name : String) :
    renameFolderApply db fid name
      = (.ok { g with name := name }, renameFoldersMap db fid name) := by
  unfold renameFolderApply
  have hfind : (renameFoldersMap db fid name).folders.find? (fun g => g.id = fid)
      = some { g with name := name } :=
    find?_map_update Folder.id hw1 hg hgid
      (fun x => { x with name := name }) (fun x => rfl)
  rw [hfind]

/-- The file-rename UPDATE re-SELECT returns the renamed row. -/
theorem renameFileApply_ok {db : DB}
    (hw2 : db.files.Pairwise (fun a b => a.id ≠ b.id))
    {h : FileRec} (hh : h ∈ db.files) {fid : Nat} (hhid : h.id = fid)
    (name : String) :
    renameFileApply db fid name
      = (.ok { h with name := name }, renameFilesMap db fid name) := by
  unfold renameFileApply
  have hfind : (renameFilesMap db fid name).files.find? (fun h => h.id = fid)
      = some { h with name := name } :=
    find?_map_update FileRec.id hw2 hh hhid
      (fun x => { x with name := name }) (fun x => rfl)
  rw [hfind]

/-- The file-move UPDATE re-SELECT returns the retargeted row. -/
theorem moveFileApply_ok {db : DB}
    (hw2 : db.files.Pairwise (fun a b => a.id ≠ b.id))
    {h : FileRec} (hh : h ∈ db.files) {fid : Nat} (hhid : h.id = fid)
    (target : Option Nat) :
    moveFileApply db fid target
      = (.ok { h with parentFolderId := target }, moveFilesMap db fid target) := by
  unfold moveFileApply
  have hfind : (moveFilesMap db fid target).files.find? (fun h => h.id = fid)
      = some { h with parentFolderId := target } :=
    find?_map_update FileRec.id hw2 hh hhid
      (fun x => { x with parentFolderId := target }) (fun x => rfl)
  rw [hfind]

/-! ## Claim theorems -/

/-- C1: for distinct users `a ≠ b` and any folder or file owned by `b`, every
hierarchy-store operation performed as `a` on that entity's id (fetch, rename
with any well-formed name, delete, download, move to any target) fails with
NotFound and leaves the store unchanged — cross-owner access is
indistinguishable from absence. (An empty rename name is rejected 400 before
the store is ever consulted, for any caller and id alike.) -/
theorem cross_owner_isolation (db : DB) (a b : Nat) (hw : WF db) (hab : a ≠ b) :
    (∀ g ∈ db.folders, g.userId = b →
      get_folder db a g.id = .error .notFound ∧
      (∀ name, name ≠ "" →
        rename_folder db a g.id name = (.error .notFound, db)) ∧
      delete_folder db a g.id = (.error .notFound, db)) ∧
    (∀ h ∈ db.files, h.userId = b →
      get_file_metadata db a h.id = .error .notFound ∧
      download_file db a h.id = .error .notFound ∧
      (∀ name, name ≠ "" →
        rename_file db a h.id name = (.error .notFound, db)) ∧
      delete_file db a h.id = (.error .notFound, db) ∧
      (∀ target, move_file db a h.id target = (.error .notFound, db))) := by
  obtain ⟨hw1, hw2⟩ := hw
  constructor
  · intro g hg hgu
    have hnone : findFolder db g.id a = none :=
      findFolder_cross hw1 hg (by rw [hgu]; exact hab)
    refine ⟨?_, ?_, ?_⟩
    · unfold get_folder
      rw [hnone]
    · intro name hname
      unfold rename_folder
      rw [if_neg hname, hnone]
    · unfold delete_folder
      rw [hnone]
  · intro h hh hhu
    have hnone : findFile db h.id a = none :=
      findFile_cross hw2 hh (by rw [hhu]; exact hab)
    refine ⟨?_, ?_, ?_, ?_, ?_⟩
    · unfold get_file_metadata
      rw [hnone]
    · unfold download_file
      rw [hnone]
    · intro name hname
      unfold rename_file
      rw [if_neg hname, hnone]
    · unfold delete_file
      rw [hnone]
    · intro target
      unfold move_file
      rw [hnone]

/-- C1 witness: user 1 hitting user 2's folder id 1 and file id 1 in `dbW`. -/
theorem cross_owner_isolation_witness :
    get_folder dbW 1 1 = .error .notFound ∧
    rename_folder dbW 1 1 "x" = (.error .notFound, dbW) ∧
    delete_folder dbW 1 1 = (.error .notFound, dbW) ∧
    get_file_metadata dbW 1 1 = .error .notFound ∧
    download_file dbW 1 1 = .error .notFound ∧
    rename_file dbW 1 1 "x" = (.error .notFound, dbW) ∧
    delete_file dbW 1 1 = (.error .notFound, dbW) ∧
    move_file dbW 1 1 none = (.error .notFound, dbW) := by
  obtain ⟨hf, hl⟩ := cross_owner_isolation dbW 1 2 (by decide) (by decide)
  obtain ⟨h1, h2, h3⟩ := hf folderB (by decide) rfl
  obtain ⟨h4, h5, h6, h7, h8⟩ := hl fileB (by decide) rfl
  exact ⟨h1, h2 "x" (by decide), h3, h4, h5, h6 "x" (by decide), h7, h8 none⟩

/-- C7: renaming updates only the name. With an empty name both renames fail
400 and change nothing; with an absent or unowned id they fail 404 and change
nothing; on an owned id with a non-empty name they succeed, returning the row
with only its name replaced, and the new store is the old one with exactly the
matching row's name rewritten — ids, owners, parent references, timestamps,
and for files content, size and MIME type are untouched, as is the other
table. -/
theorem rename_updates_only_name (db : DB) (uid fid : Nat) (name : String)
    (hw : WF db) :
    (name = "" →
      rename_folder db uid fid name = (.error .invalidInput, db) ∧
      rename_file db uid fid name = (.error .invalidInput, db)) ∧
    (name ≠ "" → findFolder db fid uid = none →
      rename_folder db uid fid name = (.error .notFound, db)) ∧
    (name ≠ "" → findFile db fid uid = none →
      rename_file db uid fid name = (.error .notFound, db)) ∧
    (∀ g ∈ db.folders, g.id = fid → g.userId = uid → name ≠ "" →
      rename_folder db uid fid name = (.ok { g with name := name },
        renameFoldersMap db fid name) ∧
      (renameFoldersMap db fid name).files = db.files ∧
      (renameFoldersMap db fid name).nextFolderId = db.nextFolderId ∧
      (renameFoldersMap db fid name).folders = db.folders.map (fun x =>
        if x.id = fid then { x with name := name } else x)) ∧
    (∀ h ∈ db.files, h.id = fid → h.userId = uid → name ≠ "" →
      rename_file db uid fid name = (.ok { h with name := name },
        renameFilesMap db fid name) ∧
      (renameFilesMap db fid name).folders = db.folders ∧
      (renameFilesMap db fid name).nextFileId = db.nextFileId ∧
      (renameFilesMap db fid name).files = db.files.map (fun x =>
        if x.id = fid then { x with name := name } else x)) := by
  obtain ⟨hw1, hw2⟩ := hw
  refine ⟨?_, ?_, ?_, ?_, ?_⟩
  · intro hname
    constructor
    · unfold rename_folder
      rw [if_pos hname]
    · unfold rename_file
      rw [if_pos hname]
  · intro hname hnone
    unfold rename_folder
    rw [if_neg hname, hnone]
  · intro hname hnone
    unfold rename_file
    rw [if_neg hname, hnone]
  · intro g hg hgid hgu hname
    have hfind : findFolder db fid uid = some g := by
      rw [← hgid]
      exact findFolder_self hw1 hg hgu
    refine ⟨?_, rfl, rfl, rfl⟩
    unfold rename_folder
    rw [if_neg hname, hfind]
    exact renameFolderApply_ok hw1 hg hgid name
  · intro h hh hhid hhu hname
    have hfind : findFile db fid uid = some h := by
      rw [← hhid]
      exact findFile_self hw2 hh hhu
    refine ⟨?_, rfl, rfl, rfl⟩
    unfold rename_file
    rw [if_neg hname, hfind]
    exact renameFileApply_ok hw2 hh hhid name

/-- C7 witness: user 2 renaming their folder 1 and file 1 in `dbW`, plus the
failure branches at an empty name and an absent id. -/
theorem rename_updates_only_name_witness :
    rename_folder dbW 2 1 "" = (.error .invalidInput, dbW) ∧
    rename_folder dbW 2 9 "y" = (.error .notFound, dbW) ∧
    rename_folder dbW 2 1 "y" = (.ok { folderB with name := "y" },
      renameFoldersMap dbW 1 "y") ∧
    rename_file dbW 2 1 "y" = (.ok { fileB with name := "y" },
      renameFilesMap dbW 1 "y") := by
  obtain ⟨he, hnf, hnf2, hok, hok2⟩ :=
    rename_updates_only_name dbW 2 1 "" (by decide)
  obtain ⟨he', hnf', hnf2', hok', hok2'⟩ :=
    rename_updates_only_name dbW 2 9 "y" (by decide)
  obtain ⟨he3, hnf3, hnf4, hok3, hok4⟩ :=
    rename_updates_only_name dbW 2 1 "y" (by decide)
  exact ⟨(he rfl).1, hnf' (by decide) (by decide),
    (hok3 folderB (by decide) rfl rfl (by decide)).1,
    (hok4 fileB (by decide) rfl rfl (by decide)).1⟩

/-- C5 helper: whatever the decode on a structured token returns, a successful
result carries exactly the token's claims. -/
theorem jwt_decode_some {c : Claims} {s : Sig} {key : String} {now : Nat}
    {payload : Claims} (h : jwt_decode (.jws c s) key now = some payload) :
    payload = c := by
  unfold jwt_decode at h
  dsimp only at h
  by_cases hsig : s = Sig.hmac key c
  · rw [if_pos hsig] at h
    cases hexp : c.exp with
    | some e =>
      rw [hexp] at h
      dsimp only at h
      by_cases hle : e ≤ now
      · rw [if_pos hle] at h
        cases h
      · rw [if_neg hle] at h
        injection h with h
        exact h.symm
    | none =>
      rw [hexp] at h
      dsimp only at h
      injection h with h
      exact h.symm
  · rw [if_neg hsig] at h
    cases h

/-- C5: `verify_token` returns the invalid result (`none`) — and, being a
total function, never throws — on every input that is structurally malformed,
carries a signature mismatch, is expired (current time ≥ expiration), or is
missing the `user_id` or `email` claim. -/
theorem verify_token_rejects (t : TokenStr) (now : Nat)
    (h : BadTokenInput t now) : verify_token t now = none := by
  rcases h with ⟨r, rfl⟩ | ⟨c, s, rfl, hs⟩ | ⟨c, s, e, rfl, he, hle⟩
    | ⟨c, s, rfl, hm⟩
  · rfl
  · unfold verify_token jwt_decode
    dsimp only
    rw [if_neg hs]
  · unfold verify_token jwt_decode
    dsimp only
    by_cases hsig : s = Sig.hmac SECRET_KEY c
    · rw [if_pos hsig, he]
      dsimp only
      rw [if_pos hle]
    · rw [if_neg hsig]
  · unfold verify_token
    cases hd : jwt_decode (.jws c s) SECRET_KEY now with
    | none => rfl
    | some payload =>
      have hpc : payload = c := jwt_decode_some hd
      subst hpc
      rcases hm with hm | hm
      · simp [hm]
      · cases hcu : payload.user_id <;> simp [hm]

/-- C5 witness: a structurally malformed token is rejected. -/
theorem verify_token_rejects_witness : verify_token (.malformed "xx") 0 = none :=
  verify_token_rejects (.malformed "xx") 0 (Or.inl ⟨"xx", rfl⟩)

/-- C8: a token issued for user `(uid, email)` verifies as exactly that user
at any instant strictly before its expiration (issue time + 30 minutes by
default); any forged (tampered) token string fails verification; and once the
configured expiry has elapsed, verification of the issued token fails. -/
theorem token_lifecycle (uid : Nat) (email : String) (t0 now : Nat) :
    (now < t0 + ACCESS_TOKEN_EXPIRE_MINUTES * 60 →
      verify_token (create_access_token uid email none t0) now
        = some ⟨uid, email⟩) ∧
    (∀ t', Tampered (create_access_token uid email none t0) t' →
      verify_token t' now = none) ∧
    (t0 + ACCESS_TOKEN_EXPIRE_MINUTES * 60 ≤ now →
      verify_token (create_access_token uid email none t0) now = none) := by
  refine ⟨?_, ?_, ?_⟩
  · intro hlt
    unfold verify_token create_access_token jwt_encode jwt_decode
    dsimp only [Option.getD]
    rw [if_pos rfl]
    rw [if_neg (by omega)]
  · intro t' ht
    obtain ⟨hne, hforged⟩ := ht
    cases t' with
    | malformed r => rfl
    | jws c s =>
      unfold verify_token jwt_decode
      dsimp only
      have hs : s ≠ Sig.hmac SECRET_KEY c := by
        intro hs
        exact hforged c (by rw [hs]; rfl)
      rw [if_neg hs]
  · intro hge
    unfold verify_token create_access_token jwt_encode jwt_decode
    dsimp only [Option.getD]
    rw [if_pos rfl]
    rw [if_pos (by omega)]

/-- C8 witness: a token issued at time 0 for user 7 verifies before 1800
seconds, a forged string fails, and verification fails at 1800 seconds. -/
theorem token_lifecycle_witness :
    verify_token (create_access_token 7 "u@example.com" none 0) 10
      = some ⟨7, "u@example.com"⟩ ∧
    verify_token (.malformed "g") 10 = none ∧
    verify_token (create_access_token 7 "u@example.com" none 0) 1800 = none := by
  obtain ⟨h1, h2, -⟩ := token_lifecycle 7 "u@example.com" 0 10
  obtain ⟨-, -, h3⟩ := token_lifecycle 7 "u@example.com" 0 1800
  refine ⟨h1 (by decide), h2 (.malformed "g") ⟨by decide, ?_⟩, h3 (by decide)⟩
  intro c hc
  cases hc

/-- C4 counterexample: `verify_password` on a malformed digest raises
bcrypt's `ValueError("Invalid salt")` — it does not return false. -/
theorem verify_password_malformed_counterexample :
    verify_password [104, 105] (.raw "not-a-digest") = .error "Invalid salt" ∧
    ∀ b : Bool, verify_password [104, 105] (.raw "not-a-digest") ≠ .ok b := by
  refine ⟨rfl, ?_⟩
  intro b h
  cases h

/-- C4 amended: on a malformed digest `verify_password` raises (propagates
bcrypt's `ValueError`) rather than returning false; on any well-formed bcrypt
digest it returns a boolean and never throws. -/
theorem verify_password_error_behavior (pw : List Nat) :
    (∀ s, verify_password pw (.raw s) = .error "Invalid salt") ∧
    (∀ salt stored, ∃ b : Bool,
      verify_password pw (.bcrypt salt stored) = .ok b) := by
  constructor
  · intro s
    rfl
  · intro salt stored
    exact ⟨_, rfl⟩

/-- C2 counterexample: the empty byte sequence refutes the claim as stated —
its transfer encoding is the empty string, which `upload_file` rejects 400
("File content is required") before decoding, so no file is created at all
(no stored size, no id to download). -/
theorem upload_empty_counterexample :
    b64encode [] = [] ∧
    upload_file DB.init 1 "a.txt" (b64encode []) none 0
      = (.error .invalidInput, DB.init) := ⟨rfl, rfl⟩

/-- C2 amended: for every NON-empty byte sequence `C` uploaded under its
base64 transfer encoding with a valid (non-empty) name and an absent or owned
parent (and a fresh AUTOINCREMENT id, as the engine guarantees), the created
file stores exactly `C` with `size = C.length`, and downloading the returned
id as the same user yields the base64 text of the stored bytes, which decodes
back to exactly `C`. -/
theorem upload_download_roundtrip (db : DB) (uid : Nat) (name : String)
    (C : List Nat) (parent : Option Nat) (now : Nat)
    (hname : name ≠ "") (hC : C ≠ []) (hbytes : ∀ x ∈ C, x < 256)
    (hparent : parent = none ∨
      ∃ p ∈ db.folders, parent = some p.id ∧ p.userId = uid)
    (hfresh : ∀ x ∈ db.files, x.id ≠ db.nextFileId) :
    upload_file db uid name (b64encode C) parent now
      = (.ok ⟨db.nextFileId, name, C, C.length, detect_mime_type name, uid,
          parent, now⟩,
        { db with
          files := db.files ++ [⟨db.nextFileId, name, C, C.length,
              detect_mime_type name, uid, parent, now⟩],
          nextFileId := db.nextFileId + 1 }) ∧
    download_file (upload_file db uid name (b64encode C) parent now).2 uid
        db.nextFileId
      = .ok ⟨db.nextFileId, name, b64encode C, detect_mime_type name,
          C.length⟩ ∧
    b64decode (b64encode C) = some C := by
  have hdec := b64_roundtrip C hbytes
  have henc : b64encode C ≠ [] := b64encode_ne_nil hC
  have hchk : (truthyId parent && (findFolder db (parent.getD 0) uid).isNone)
      = false := by
    rcases hparent with rfl | ⟨p, hp, rfl, hpu⟩
    · rfl
    · by_cases hp0 : p.id = 0
      · simp [truthyId, hp0]
      · have hne : findFolder db p.id uid ≠ none := by
          intro hn
          have := List.find?_eq_none.mp hn p hp
          simp [hpu] at this
        cases hfo : findFolder db p.id uid with
        | none => exact absurd hfo hne
        | some q =>
          simp only [Option.getD_some, hfo, Option.isNone_some, Bool.and_false]
  have hfk : fkFolderExists db parent = true := by
    rcases hparent with rfl | ⟨p, hp, rfl, hpu⟩
    · rfl
    · simp only [fkFolderExists]
      exact List.any_eq_true.mpr ⟨p, hp, by simp⟩
  have hup : upload_file db uid name (b64encode C) parent now
      = (.ok ⟨db.nextFileId, name, C, C.length, detect_mime_type name, uid,
          parent, now⟩,
        { db with
          files := db.files ++ [⟨db.nextFileId, name, C, C.length,
              detect_mime_type name, uid, parent, now⟩],
          nextFileId := db.nextFileId + 1 }) := by
    unfold upload_file
    rw [if_neg hname, if_neg henc, hdec]
    dsimp only
    rw [if_neg (by rw [hchk]; simp), if_pos hfk]
  refine ⟨hup, ?_, hdec⟩
  rw [hup]
  unfold download_file findFile
  dsimp only
  have hold : db.files.find?
      (fun h => h.id = db.nextFileId && h.userId = uid) = none := by
    refine List.find?_eq_none.mpr ?_
    intro x hx hpx
    simp only [Bool.and_eq_true, decide_eq_true_eq] at hpx
    exact hfresh x hx hpx.1
  rw [List.find?_append, hold]
  simp only [Option.none_or]
  rw [List.find?_cons_of_pos _ (by simp)]

/-- C2 witness: uploading the two bytes `[37, 80]` of "%P" as `q1.pdf` into
the fresh store and downloading file id 1 round-trips. -/
theorem upload_download_roundtrip_witness :
    upload_file DB.init 1 "q1.pdf" (b64encode [37, 80]) none 5
      = (.ok ⟨DB.init.nextFileId, "q1.pdf", [37, 80], [37, 80].length,
          detect_mime_type "q1.pdf", 1, none, 5⟩,
        { DB.init with
          files := DB.init.files ++ [⟨DB.init.nextFileId, "q1.pdf", [37, 80],
              [37, 80].length, detect_mime_type "q1.pdf", 1, none, 5⟩],
          nextFileId := DB.init.nextFileId + 1 }) ∧
    download_file (upload_file DB.init 1 "q1.pdf" (b64encode [37, 80]) none
        5).2 1 DB.init.nextFileId
      = .ok ⟨DB.init.nextFileId, "q1.pdf", b64encode [37, 80],
          detect_mime_type "q1.pdf", [37, 80].length⟩ ∧
    b64decode (b64encode [37, 80]) = some [37, 80] :=
  upload_download_roundtrip DB.init 1 "q1.pdf" [37, 80] none 5 (by decide)
    (by decide) (by decide) (Or.inl rfl) (by decide)

/-- C3: deleting an owned folder removes, in one atomic step, the folder
itself, every descendant folder, and every file parented anywhere in the
deleted subtree — the engine's referential-integrity cascade, not application
recursion; afterwards fetching any of those ids as ANY user yields NotFound.
An absent or unowned id fails NotFound and removes nothing. -/
theorem delete_folder_cascade (db : DB) (uid : Nat) (hw : WF db) :
    (∀ g ∈ db.folders, g.userId = uid →
      delete_folder db uid g.id = (.ok (), { db with
        folders := db.folders.filter
          (fun x => !(cascadeSet db g.id).contains x.id),
        files := db.files.filter
          (fun x => !(x.parentFolderId.elim false
            (cascadeSet db g.id).contains)) }) ∧
      (∀ x, Descendant db.folders g.id x → ∀ u,
        get_folder (delete_folder db uid g.id).2 u x = .error .notFound) ∧
      (∀ h ∈ db.files, ∀ p, h.parentFolderId = some p →
        Descendant db.folders g.id p → ∀ u,
        get_file_metadata (delete_folder db uid g.id).2 u h.id
          = .error .notFound)) ∧
    (∀ fid, findFolder db fid uid = none →
      delete_folder db uid fid = (.error .notFound, db)) := by
  obtain ⟨hw1, hw2⟩ := hw
  constructor
  · intro g hg hgu
    have hfind : findFolder db g.id uid = some g := findFolder_self hw1 hg hgu
    have hdel : delete_folder db uid g.id = (.ok (), { db with
        folders := db.folders.filter
          (fun x => !(cascadeSet db g.id).contains x.id),
        files := db.files.filter
          (fun x => !(x.parentFolderId.elim false
            (cascadeSet db g.id).contains)) }) := by
      unfold delete_folder
      rw [hfind]
    refine ⟨hdel, ?_, ?_⟩
    · intro x hx u
      rw [hdel]
      unfold get_folder findFolder
      dsimp only
      have hxin : x ∈ cascadeSet db g.id := descendant_mem_cascadeSet hx
      have hnone : (db.folders.filter
          (fun y => !(cascadeSet db g.id).contains y.id)).find?
          (fun f => f.id = x && f.userId = u) = none := by
        refine List.find?_eq_none.mpr ?_
        intro y hy hpy
        obtain ⟨hymem, hykeep⟩ := List.mem_filter.mp hy
        simp only [Bool.and_eq_true, decide_eq_true_eq] at hpy
        simp only [Bool.not_eq_true', Bool.eq_false_iff, ne_eq,
          nat_contains_iff] at hykeep
        rw [hpy.1] at hykeep
        exact hykeep hxin
      rw [hnone]
    · intro h hh p hp hdesc u
      rw [hdel]
      unfold get_file_metadata findFile
      dsimp only
      have hpd : p ∈ cascadeSet db g.id := descendant_mem_cascadeSet hdesc
      have hnone : (db.files.filter
          (fun y => !(y.parentFolderId.elim false
            (cascadeSet db g.id).contains))).find?
          (fun f => f.id = h.id && f.userId = u) = none := by
        refine List.find?_eq_none.mpr ?_
        intro y hy hpy
        obtain ⟨hymem, hykeep⟩ := List.mem_filter.mp hy
        simp only [Bool.and_eq_true, decide_eq_true_eq] at hpy
        have hyh : y = h := eq_of_mem_of_id_eq FileRec.id hw2 hymem hh hpy.1
        rw [hyh, hp] at hykeep
        simp only [Option.elim, Bool.not_eq_true', Bool.eq_false_iff, ne_eq,
          nat_contains_iff] at hykeep
        exact hykeep hpd
      rw [hnone]
  · intro fid hnone
    unfold delete_folder
    rw [hnone]

/-- C3 witness: in `dbC`, user 1 deletes folder 1; subfolder 2 and file 1
(parented in folder 2) are gone with it. -/
theorem delete_folder_cascade_witness :
    delete_folder dbC 1 1 = (.ok (), { dbC with
      folders := dbC.folders.filter
        (fun x => !(cascadeSet dbC 1).contains x.id),
      files := dbC.files.filter
        (fun x => !(x.parentFolderId.elim false
          (cascadeSet dbC 1).contains)) }) ∧
    get_folder (delete_folder dbC 1 1).2 1 2 = .error .notFound ∧
    get_file_metadata (delete_folder dbC 1 1).2 1 1 = .error .notFound := by
  obtain ⟨hok, -⟩ := delete_folder_cascade dbC 1 (by decide)
  obtain ⟨hdel, hgf, hgm⟩ := hok folderR (by decide) rfl
  have hd2 : Descendant dbC.folders 1 2 :=
    Descendant.step folderS (by decide) rfl Descendant.refl
  exact ⟨hdel, hgf 2 hd2 1, hgm fileC (by decide) 2 rfl hd2 1⟩

/-- C9: moving an owned file to a null parent places it at root level: the
call succeeds returning the row with only its parent reference cleared, the
store's folders are untouched and its files are the old rows with exactly the
matching row's parent set to null; a subsequent fetch of the old parent folder
no longer lists the file among its children, while the root-level listing of
the owner includes it. -/
theorem move_file_to_root (db : DB) (uid : Nat) (hw : WF db)
    (h : FileRec) (hh : h ∈ db.files) (hu : h.userId = uid)
    (oldp : Folder) (hop : oldp ∈ db.folders) (hopu : oldp.userId = uid)
    (_hparent : h.parentFolderId = some oldp.id) :
    move_file db uid h.id none
      = (.ok { h with parentFolderId := none }, moveFilesMap db h.id none) ∧
    (moveFilesMap db h.id none).folders = db.folders ∧
    (moveFilesMap db h.id none).files = db.files.map (fun x =>
      if x.id = h.id then { x with parentFolderId := none } else x) ∧
    (∀ v, get_folder (moveFilesMap db h.id none) uid oldp.id = .ok v →
      ∀ x ∈ v.files, x.id ≠ h.id) ∧
    (∃ v, get_folder (moveFilesMap db h.id none) uid oldp.id = .ok v) ∧
    { h with parentFolderId := none } ∈ root_listing (moveFilesMap db h.id none) uid := by
  obtain ⟨hw1, hw2⟩ := hw
  have hfind : findFile db h.id uid = some h := findFile_self hw2 hh hu
  have hmv : move_file db uid h.id none
      = (.ok { h with parentFolderId := none }, moveFilesMap db h.id none) := by
    unfold move_file
    rw [hfind]
    dsimp only
    exact moveFileApply_ok hw2 hh rfl none
  have hfo : findFolder (moveFilesMap db h.id none) oldp.id uid = some oldp :=
    findFolder_self hw1 hop hopu
  have hget : get_folder (moveFilesMap db h.id none) uid oldp.id
      = .ok ⟨oldp,
        (moveFilesMap db h.id none).folders.filter
          (fun s => s.parentFolderId = some oldp.id && s.userId = uid),
        (moveFilesMap db h.id none).files.filter
          (fun f => f.parentFolderId = some oldp.id && f.userId = uid)⟩ := by
    unfold get_folder
    rw [hfo]
  refine ⟨hmv, rfl, rfl, ?_, ⟨_, hget⟩, ?_⟩
  · intro v hv x hx hxid
    rw [hget] at hv
    injection hv with hv
    rw [← hv] at hx
    dsimp only at hx
    obtain ⟨hxmem, hxpred⟩ := List.mem_filter.mp hx
    obtain ⟨y, hy, hyx⟩ := List.mem_map.mp hxmem
    simp only [Bool.and_eq_true, decide_eq_true_eq] at hxpred
    by_cases hyid : y.id = h.id
    · rw [if_pos hyid] at hyx
      rw [← hyx] at hxpred
      cases hxpred.1
    · rw [if_neg hyid] at hyx
      rw [← hyx] at hxid
      exact hyid hxid
  · refine List.mem_filter.mpr ⟨?_, ?_⟩
    · exact List.mem_map.mpr ⟨h, hh, by rw [if_pos rfl]⟩
    · simp [hu]

/-- C9 witness: user 1 moves file 1 (inside folder 2 of `dbC`) to root. -/
theorem move_file_to_root_witness :
    move_file dbC 1 1 none
      = (.ok { fileC with parentFolderId := none }, moveFilesMap dbC 1 none) ∧
    (∀ v, get_folder (moveFilesMap dbC 1 none) 1 2 = .ok v →
      ∀ x ∈ v.files, x.id ≠ 1) ∧
    { fileC with parentFolderId := none } ∈ root_listing (moveFilesMap dbC 1 none) 1 := by
  obtain ⟨h1, h2, h3, h4, h5, h6⟩ :=
    move_file_to_root dbC 1 (by decide) fileC (by decide) rfl folderS
      (by decide) rfl rfl
  exact ⟨h1, h4, h6⟩

/-- C6 counterexample: `parent_id = 0` — non-null, never an owned folder since
AUTOINCREMENT ids start at 1 — is Python-falsy, so both handlers skip the
ownership check; the INSERT then trips the engine's FK check and surfaces as
500 Internal, not the claimed 404 NotFound. -/
theorem parent_zero_counterexample :
    create_folder DB.init 1 "a" (some 0) 0 ≠ (.error .notFound, DB.init) ∧
    upload_file DB.init 1 "a" (b64encode [1]) (some 0) 0
      ≠ (.error .notFound, DB.init) ∧
    create_folder DB.init 1 "a" (some 0) 0 = (.error .internal, DB.init) ∧
    upload_file DB.init 1 "a" (b64encode [1]) (some 0) 0
      = (.error .internal, DB.init) := by
  have hc : create_folder DB.init 1 "a" (some 0) 0
      = (.error .internal, DB.init) := rfl
  have hu : upload_file DB.init 1 "a" (b64encode [1]) (some 0) 0
      = (.error .internal, DB.init) := rfl
  refine ⟨?_, ?_, hc, hu⟩
  · rw [hc]
    intro hcontra
    injection hcontra with h1 h2
    injection h1 with h1
    cases h1
  · rw [hu]
    intro hcontra
    injection hcontra with h1 h2
    injection h1 with h1
    cases h1

/-- C6 amended: a given NONZERO parent id not owned by the caller makes
`create_folder` and `upload_file` fail NotFound inserting nothing; the
Python-falsy parent id 0 bypasses the ownership check and instead fails at the
engine's FK check (500 Internal), still inserting nothing; and in every
reachable store each folder's and file's parent reference names an existing
folder of the same owner. -/
theorem parent_check_and_integrity (db : DB) (uid : Nat) (name : String)
    (now : Nat) :
    (∀ p, p ≠ 0 → findFolder db p uid = none → name ≠ "" →
      create_folder db uid name (some p) now = (.error .notFound, db) ∧
      ∀ C, C ≠ [] → (∀ x ∈ C, x < 256) →
        upload_file db uid name (b64encode C) (some p) now
          = (.error .notFound, db)) ∧
    ((∀ g ∈ db.folders, 0 < g.id) → name ≠ "" →
      create_folder db uid name (some 0) now = (.error .internal, db) ∧
      ∀ C, C ≠ [] → (∀ x ∈ C, x < 256) →
        upload_file db uid name (b64encode C) (some 0) now
          = (.error .internal, db)) ∧
    (Reachable db →
      (∀ g ∈ db.folders, ∀ p, g.parentFolderId = some p →
        ∃ q ∈ db.folders, q.id = p ∧ q.userId = g.userId) ∧
      (∀ h ∈ db.files, ∀ p, h.parentFolderId = some p →
        ∃ q ∈ db.folders, q.id = p ∧ q.userId = h.userId)) := by
  refine ⟨?_, ?_, ?_⟩
  · intro p hp0 hnone hname
    have hcond : (truthyId (some p)
        && (findFolder db ((some p).getD 0) uid).isNone) = true := by
      simp [truthyId, hp0, Option.getD_some, hnone]
    constructor
    · unfold create_folder
      rw [if_neg hname, if_pos hcond]
    · intro C hC hbytes
      unfold upload_file
      rw [if_neg hname, if_neg (b64encode_ne_nil hC), b64_roundtrip C hbytes]
      dsimp only
      rw [if_pos hcond]
  · intro hpos hname
    have hfk : fkFolderExists db (some 0) = false := by
      simp only [fkFolderExists]
      refine Bool.eq_false_iff.mpr ?_
      intro hany
      obtain ⟨g, hg, hg0⟩ := List.any_eq_true.mp hany
      simp only [decide_eq_true_eq] at hg0
      have := hpos g hg
      omega
    have hcond : ¬ ((truthyId (some 0)
        && (findFolder db ((some 0).getD 0) uid).isNone) = true) := by
      simp [truthyId]
    constructor
    · unfold create_folder
      rw [if_neg hname, if_neg hcond, if_neg (by simp [hfk])]
    · intro C hC hbytes
      unfold upload_file
      rw [if_neg hname, if_neg (b64encode_ne_nil hC), b64_roundtrip C hbytes]
      dsimp only
      rw [if_neg hcond, if_neg (by simp [hfk])]
  · intro hr
    have hinv := reachable_inv hr
    exact ⟨fun g hg p hp => ((hinv.2.2.2.2.1) g hg p hp).2,
      hinv.2.2.2.2.2⟩

/-- C6 witness: in `dbW` user 1 owns nothing — a create/upload under the
unowned nonzero parent 7 fails NotFound, under parent 0 fails Internal, and
the fresh store vacuously satisfies the parent-integrity invariant. -/
theorem parent_check_and_integrity_witness :
    create_folder dbW 1 "a" (some 7) 3 = (.error .notFound, dbW) ∧
    upload_file dbW 1 "a" (b64encode [2]) (some 7) 3
      = (.error .notFound, dbW) ∧
    create_folder dbW 1 "a" (some 0) 3 = (.error .internal, dbW) ∧
    (∀ g ∈ DB.init.folders, ∀ p, g.parentFolderId = some p →
      ∃ q ∈ DB.init.folders, q.id = p ∧ q.userId = g.userId) := by
  obtain ⟨hi, hii, -⟩ := parent_check_and_integrity dbW 1 "a" 3
  obtain ⟨c1, c2⟩ := hi 7 (by decide) (by decide) (by decide)
  obtain ⟨z1, -⟩ := hii (by decide) (by decide)
  obtain ⟨r1, -⟩ :=
    (parent_check_and_integrity DB.init 1 "a" 3).2.2 Reachable.init
  exact ⟨c1, c2 [2] (by decide) (by decide), z1, r1⟩

/-- C10: folder parent references are fixed at creation — `rename_folder`
preserves every folder's (id, parent) pair — and in every reachable store the
parent relation over folders is acyclic: no chain of parent steps returns to
its starting id, so each user's folders form a forest. -/
theorem folder_forest (db : DB) (hr : Reachable db) :
    (∀ uid fid name,
      ((rename_folder db uid fid name).2).folders.map
          (fun g => (g.id, g.parentFolderId))
        = db.folders.map (fun g => (g.id, g.parentFolderId))) ∧
    (∀ a, ¬ Relation.TransGen (ParentStep db.folders) a a) := by
  have h5 := (reachable_inv hr).2.2.2.2.1
  constructor
  · intro uid fid name
    unfold rename_folder
    split
    · rfl
    · split
      · rfl
      · rw [renameFolderApply_snd]
        unfold renameFoldersMap
        dsimp only
        rw [List.map_map]
        refine List.map_congr_left ?_
        intro x hx
        dsimp only [Function.comp]
        split <;> rfl
  · intro a ha
    have hstep : ∀ x y, ParentStep db.folders x y → y < x := by
      intro x y hxy
      obtain ⟨g, hg, hgid, hgp⟩ := hxy
      have := (h5 g hg y hgp).1
      omega
    have hlt : ∀ x y, Relation.TransGen (ParentStep db.folders) x y → y < x := by
      intro x y hxy
      induction hxy with
      | single h1 => exact hstep _ _ h1
      | tail h1 h2 ih =>
        have := hstep _ _ h2
        omega
    exact absurd (hlt a a ha) (lt_irrefl a)

/-- C10 witness: renaming in the fresh store preserves all (id, parent) pairs,
and no parent cycle exists at id 3. -/
theorem folder_forest_witness :
    ((rename_folder DB.init 1 1 "n").2).folders.map
        (fun g => (g.id, g.parentFolderId))
      = DB.init.folders.map (fun g => (g.id, g.parentFolderId)) ∧
    ¬ Relation.TransGen (ParentStep DB.init.folders) 3 3 := by
  obtain ⟨h1, h2⟩ := folder_forest DB.init Reachable.init
  exact ⟨h1 1 1 "n", h2 3⟩

end FSBackend
